import Mathlib

/-!
Shallow embedding of `src/rng.py` (the "smrng" program): a 16-bit PRNG
(`rng`), the derived boolean `drop`, the fixed simulation protocol
`minikraid`, the cycle detector `findloop`, and the driver loop that sweeps
all 65536 seeds into a 6-bucket histogram.

Python's integers are unbounded, and the code masks explicitly with
`& 0xFF` / `& 0xFFFF` and shifts with `>> 8` / `>> 16`; on natural numbers
those are `% 256` / `% 65536` and `/ 256` / `/ 65536`, which is how the
masks and shifts are rendered here. The global mutable `seed` variable is
rendered by explicit state passing: every operation takes the current
state and returns its result together with the new state.
-/

namespace SMRng

/-- Embedding of `rng()` (src/rng.py lines 4-11): the state-transition
function. `result = (seed & 0xFF) * 5`; `hi = (((seed >> 8) & 0xFF) * 5) & 0xFF`;
`result += (hi << 8) + 0x100`; `result = ((result >> 16) + result + 0x11) & 0xFFFF`. -/
def rng (seed : Nat) : Nat :=
  let result := (seed % 256) * 5
  let hi := ((seed / 256 % 256) * 5) % 256
  let result2 := result + hi * 256 + 0x100
  ((result2 / 65536) + result2 + 0x11) % 65536

/-- Embedding of the `while val == 0: val = rng() & 0xFF` loop of `drop()`
(src/rng.py lines 13-17), with explicit fuel bounding the number of loop
iterations. Returns the boolean `val == 1` and the state after the loop,
or `none` if the fuel runs out before a nonzero low byte appears. -/
def dropFuel : Nat → Nat → Option (Bool × Nat)
  | 0, _ => none
  | fuel + 1, s =>
    if rng s % 256 = 0 then dropFuel fuel (rng s)
    else some (decide (rng s % 256 = 1), rng s)

/-- Embedding of `drop()` (src/rng.py lines 13-17) as a total function:
the loop body with fuel 2, which `dropFuel_two_isSome` shows is never hit
short of fuel. Returns the boolean outcome and the new state. -/
def drop (s : Nat) : Bool × Nat :=
  (dropFuel 2 s).getD (false, 0)

/-- Embedding of `for i in range(176): rng()` (src/rng.py line 21):
`burn n s` applies `rng` to the state `n` times. -/
def burn : Nat → Nat → Nat
  | 0, s => s
  | n + 1, s => burn n (rng s)

/-- Embedding of `minikraid()` (src/rng.py lines 19-22), state-passing:
returns the outcome `int(a)+int(b)+int(c)+int(d)+int(drop())` together
with the final generator state. The tuple assignment on line 20 evaluates
left to right: rng, drop→a, rng, drop→b, rng, drop→c, rng, drop→d. -/
def minikraidS (s : Nat) : Nat × Nat :=
  let s1 := rng s
  let d1 := drop s1
  let s2 := rng d1.2
  let d2 := drop s2
  let s3 := rng d2.2
  let d3 := drop s3
  let s4 := rng d3.2
  let d4 := drop s4
  let s5 := burn 176 d4.2
  let d5 := drop s5
  ((cond d1.1 1 0) + (cond d2.1 1 0) + (cond d3.1 1 0) + (cond d4.1 1 0) +
    (cond d5.1 1 0), d5.2)

/-- The orbit of a seed under `rng`: `orbit seed n` is the state after `n`
advances starting from `seed`. -/
def orbit (seed : Nat) : Nat → Nat
  | 0 => seed
  | n + 1 => rng (orbit seed n)

/-- Membership test / lookup in the `seen` dictionary of `findloop`,
rendered as an association list searched front to back. (The dictionary's
keys are inserted at most once each, so first-match lookup agrees with
dictionary semantics.) -/
def seenLookup (x : Nat) : List (Nat × Nat) → Option Nat
  | [] => none
  | (k, v) :: rest => if x = k then some v else seenLookup x rest

/-- Embedding of the `while seed not in seen` loop of `findloop()`
(src/rng.py lines 24-33) with explicit fuel: `seen` is the dictionary,
`i` the step counter, `st` the current state. On exit it returns
`(before, i - before, st)` — the printed `prefix` and `length`, plus the
final generator state (which the caller's subsequent code observes). -/
def findloopAux : Nat → List (Nat × Nat) → Nat → Nat → Option (Nat × Nat × Nat)
  | 0, _, _, _ => none
  | fuel + 1, seen, i, st =>
    match seenLookup st seen with
    | some before => some (before, i - before, st)
    | none => findloopAux fuel ((st, i) :: seen) (i + 1) (rng st)

/-- `findloop()` with enough fuel for states drawn from the 16-bit space:
65537 loop-condition checks cover at most 65536 insertions plus the final
check that exits the loop. -/
def findloopS (seed : Nat) : Option (Nat × Nat × Nat) :=
  findloopAux 65537 [] 0 seed

/-- The `seen` dictionary as it stands after `i` completed iterations of
the `findloop` loop started from `seed`: entries `(orbit seed j, j)` for
`j < i`, most recent first. -/
def seenAt (seed : Nat) : Nat → List (Nat × Nat)
  | 0 => []
  | i + 1 => (orbit seed i, i) :: seenAt seed i

/-- The generator state from which the driver's second `minikraid()` call
runs, for outer-loop seed `s` (src/rng.py lines 37-44): the driver sets
`seed = s`, runs `minikraid()`, and — when that outcome is 2 — sets
`seed = s` again and runs `findloop()`; the second `minikraid()` then runs
from whatever state is current (it is not re-seeded). `none` only if
`findloop` would exhaust its fuel. -/
def secondState (s : Nat) : Option Nat :=
  let r := minikraidS s
  if r.1 = 2 then (findloopS s).map (fun t => t.2.2) else some r.2

/-- The histogram index incremented by iteration `s` of the driver loop:
the outcome of the second `minikraid()` call (src/rng.py line 44). -/
def driverBucket (s : Nat) : Option Nat :=
  (secondState s).map (fun st => (minikraidS st).1)

/-- `healths[m] += 1` (src/rng.py line 44): in-bounds increment of one
bucket; out-of-range `m` is a (never-reached) failure, as in Python. -/
def bump (h : List Nat) (m : Nat) : Option (List Nat) :=
  if m < h.length then some (h.set m (h.getD m 0 + 1)) else none

/-- One full iteration of the driver loop for seed `s`, acting on the
histogram. -/
def loopBody (s : Nat) (h : List Nat) : Option (List Nat) :=
  (driverBucket s).bind (fun m => bump h m)

/-- The driver loop over a list of seeds, threading the histogram. -/
def sweep : List Nat → List Nat → Option (List Nat)
  | [], h => some h
  | s :: rest, h => (loopBody s h).bind (fun h' => sweep rest h')

/-- The whole driver (src/rng.py lines 35-46): sweep seeds 0..65535
starting from the all-zero 6-bucket histogram. -/
def driver : Option (List Nat) :=
  sweep (List.range 65536) [0, 0, 0, 0, 0, 0]

/-- The spec's description of `advance`, followed word for word:
`low = state & 0xFF`, `high = (state >> 8) & 0xFF`, `r1 = low * 5`,
`r2 = (high * 5) & 0xFF`, `combined = r1 + (r2 << 8) + 0x100`,
`folded = ((combined >> 16) + combined + 0x11) & 0xFFFF`; the new state
is `folded`. -/
def advance_specModel (s : Nat) : Nat :=
  let low := s &&& 0xFF
  let high := (s >>> 8) &&& 0xFF
  let r1 := low * 5
  let r2 := (high * 5) &&& 0xFF
  let combined := r1 + (r2 <<< 8) + 0x100
  ((combined >>> 16) + combined + 0x11) &&& 0xFFFF

/-- The spec's description of `simulate_outcome`, followed word for word:
four advance/drop pairs in order giving `a`,`b`,`c`,`d`, then exactly 176
further advances, then one final drop giving `e`; result
`int(a)+int(b)+int(c)+int(d)+int(e)`. -/
def simulate_outcome_specModel (s : Nat) : Nat × Nat :=
  let s1 := rng s
  let d1 := drop s1
  let s2 := rng d1.2
  let d2 := drop s2
  let s3 := rng d2.2
  let d3 := drop s3
  let s4 := rng d3.2
  let d4 := drop s4
  let s5 := rng^[176] d4.2
  let d5 := drop s5
  (d1.1.toNat + d2.1.toNat + d3.1.toNat + d4.1.toNat + d5.1.toNat, d5.2)

/-- The new state is always a 16-bit value. -/
lemma rng_lt (s : Nat) : rng s < 65536 :=
  Nat.mod_lt _ (by norm_num)

set_option maxRecDepth 4000 in
/-- From any state whose low byte is zero (a multiple of 256 below 65536),
one `rng` step produces a nonzero low byte. Checked over all 256 such states. -/
lemma rng_of_low_zero : ∀ h : Nat, h < 256 → rng (256 * h) % 256 ≠ 0 := by decide

/-- Two consecutive `rng` steps never both land on a zero low byte. -/
lemma rng_rng_low_ne_zero (s : Nat) (h : rng s % 256 = 0) :
    rng (rng s) % 256 ≠ 0 := by
  have h1 : rng s < 65536 := rng_lt s
  have h2 : 256 * (rng s / 256) = rng s :=
    Nat.mul_div_cancel' (Nat.dvd_of_mod_eq_zero h)
  rw [← h2]
  exact rng_of_low_zero _ (by omega)

/-- Fuel 2 always suffices for the `drop` loop: it runs at most two
iterations from any starting state. -/
lemma dropFuel_two_isSome (s : Nat) : (dropFuel 2 s).isSome := by
  by_cases h : rng s % 256 = 0
  · simp [dropFuel, h, rng_rng_low_ne_zero s h]
  · simp [dropFuel, h]

lemma dropFuel_eq_drop (s : Nat) : dropFuel 2 s = some (drop s) := by
  have h := dropFuel_two_isSome s
  cases hd : dropFuel 2 s with
  | none => rw [hd] at h; simp at h
  | some v => simp [drop, hd]

lemma burn_eq_iterate : ∀ (n : Nat) (s : Nat), burn n s = rng^[n] s := by
  intro n
  induction n with
  | zero => intro s; rfl
  | succ k ih =>
    intro s
    rw [burn, ih (rng s), Function.iterate_succ_apply]

lemma sum_five_cond_le (a b c d e : Bool) :
    (cond a 1 0) + (cond b 1 0) + (cond c 1 0) + (cond d 1 0) +
      (cond e 1 0) ≤ 5 := by
  cases a <;> cases b <;> cases c <;> cases d <;> cases e <;> decide

/-- The outcome of `minikraid` is at most 5 from any state. -/
lemma minikraidS_fst_le (s : Nat) : (minikraidS s).1 ≤ 5 :=
  sum_five_cond_le _ _ _ _ _

lemma orbit_eq_iterate (seed : Nat) : ∀ n : Nat, orbit seed n = rng^[n] seed := by
  intro n
  induction n with
  | zero => rfl
  | succ k ih => rw [orbit, ih, Function.iterate_succ_apply']

lemma orbit_lt (seed : Nat) (hs : seed < 65536) : ∀ n : Nat, orbit seed n < 65536 := by
  intro n
  cases n with
  | zero => exact hs
  | succ k => exact rng_lt _

lemma seenLookup_eq_none {x : Nat} :
    ∀ l : List (Nat × Nat), seenLookup x l = none ↔ ∀ p ∈ l, p.1 ≠ x := by
  intro l
  induction l with
  | nil => simp [seenLookup]
  | cons p rest ih =>
    obtain ⟨k, v⟩ := p
    by_cases hk : x = k
    · subst hk; simp [seenLookup]
    · simp [seenLookup, hk, ih, Ne.symm hk]

lemma seenLookup_seenAt_eq_none (seed : Nat) (i : Nat) {x : Nat}
    (h : seenLookup x (seenAt seed i) = none) :
    ∀ j : Nat, j < i → orbit seed j ≠ x := by
  induction i with
  | zero => intro j hj; omega
  | succ k ih =>
    rw [seenAt, seenLookup_eq_none] at h
    intro j hj
    rcases Nat.lt_succ_iff_lt_or_eq.mp hj with hlt | heq
    · refine ih ?_ j hlt
      rw [seenLookup_eq_none]
      intro p hp
      exact h p (List.mem_cons_of_mem _ hp)
    · subst heq
      exact h (orbit seed j, j) (List.mem_cons_self _ _)

lemma seenLookup_seenAt_some (seed : Nat) :
    ∀ i v : Nat, ∀ x : Nat, seenLookup x (seenAt seed i) = some v →
      v < i ∧ orbit seed v = x := by
  intro i
  induction i with
  | zero => intro v x h; simp [seenAt, seenLookup] at h
  | succ k ih =>
    intro v x h
    rw [seenAt, seenLookup] at h
    by_cases hx : x = orbit seed k
    · rw [if_pos hx] at h
      obtain rfl : k = v := by injection h
      exact ⟨Nat.lt_succ_self k, hx.symm⟩
    · rw [if_neg hx] at h
      obtain ⟨hv, ho⟩ := ih v x h
      exact ⟨Nat.lt_succ_of_lt hv, ho⟩

/-- Partial correctness of the `findloop` loop: started at iteration `i`
with the dictionary holding exactly the first `i` orbit states (all
distinct), a successful run stops at some step `k ≥ i` where the current
state repeats a state first seen at index `before < k`, and reports
`(before, k - before, orbit seed k)`, with all states before step `k`
pairwise distinct. -/
lemma findloopAux_sound (seed : Nat) : ∀ fuel i before len fin : Nat,
    (∀ a b : Nat, a < b → b < i → orbit seed a ≠ orbit seed b) →
    findloopAux fuel (seenAt seed i) i (orbit seed i) = some (before, len, fin) →
    ∃ k : Nat, i ≤ k ∧ before < k ∧ len = k - before ∧
      orbit seed before = orbit seed k ∧ fin = orbit seed k ∧
      (∀ a b : Nat, a < b → b < k → orbit seed a ≠ orbit seed b) := by
  intro fuel
  induction fuel with
  | zero =>
    intro i before len fin _ h
    simp [findloopAux] at h
  | succ f ih =>
    intro i before len fin hinj h
    rw [findloopAux] at h
    cases hl : seenLookup (orbit seed i) (seenAt seed i) with
    | some v =>
      rw [hl] at h
      obtain ⟨hv, ho⟩ := seenLookup_seenAt_some seed i v _ hl
      simp only [Option.some.injEq, Prod.mk.injEq] at h
      obtain ⟨rfl, rfl, rfl⟩ := h
      exact ⟨i, Nat.le_refl i, hv, rfl, ho, rfl, hinj⟩
    | none =>
      rw [hl] at h
      have hnew : ∀ j : Nat, j < i → orbit seed j ≠ orbit seed i :=
        seenLookup_seenAt_eq_none seed i hl
      have hinj' : ∀ a b : Nat, a < b → b < i + 1 → orbit seed a ≠ orbit seed b := by
        intro a b hab hb
        rcases Nat.lt_succ_iff_lt_or_eq.mp hb with hbi | hbi
        · exact hinj a b hab hbi
        · subst hbi; exact hnew a hab
      obtain ⟨k, hik, hrest⟩ := ih (i + 1) before len fin hinj' h
      exact ⟨k, by omega, hrest⟩

/-- Termination of the `findloop` loop: if the orbit repeats within the
available fuel, the loop exits with a result. -/
lemma findloopAux_term (seed : Nat) : ∀ fuel i : Nat,
    (∃ k j : Nat, i ≤ k ∧ k < i + fuel ∧ j < k ∧ orbit seed j = orbit seed k) →
    (findloopAux fuel (seenAt seed i) i (orbit seed i)).isSome := by
  intro fuel
  induction fuel with
  | zero =>
    intro i h
    obtain ⟨k, j, hik, hk, _, _⟩ := h
    omega
  | succ f ih =>
    intro i h
    obtain ⟨k, j, hik, hk, hjk, horb⟩ := h
    rw [findloopAux]
    cases hl : seenLookup (orbit seed i) (seenAt seed i) with
    | some v => simp
    | none =>
      have hki : i < k := by
        rcases Nat.eq_or_lt_of_le hik with heq | hlt
        · exfalso
          cases heq
          exact seenLookup_seenAt_eq_none seed i hl j hjk horb
        · exact hlt
      exact ih (i + 1) ⟨k, j, by omega, by omega, hjk, horb⟩

/-- Pigeonhole over the 16-bit state space: among the first 65537 orbit
states of a 16-bit seed, two coincide. -/
lemma orbit_repeats (seed : Nat) (hs : seed < 65536) :
    ∃ k j : Nat, j < k ∧ k ≤ 65536 ∧ orbit seed j = orbit seed k := by
  have h := Finset.exists_ne_map_eq_of_card_lt_of_maps_to
    (s := Finset.range 65537) (t := Finset.range 65536) (f := orbit seed)
    (by simp) ?_
  · obtain ⟨a, ha, b, hb, hne, heq⟩ := h
    simp only [Finset.mem_range] at ha hb
    rcases Nat.lt_or_ge a b with hab | hab
    · exact ⟨b, a, hab, by omega, heq⟩
    · have hba : b < a := by omega
      exact ⟨a, b, hba, by omega, heq.symm⟩
  · intro a _
    simp only [Finset.mem_range]
    exact orbit_lt seed hs a

/-- Full behavior of `findloop` on a 16-bit seed: it returns values
`(before, len, fin)` with `len ≥ 1`, stopping at step `before + len ≤ 65536`,
the state there (`fin`) equal to the state first seen at step `before`, and
all earlier states pairwise distinct. -/
lemma findloop_main (seed : Nat) (hs : seed < 65536) :
    ∃ before len fin : Nat, findloopS seed = some (before, len, fin) ∧
      1 ≤ len ∧ before + len ≤ 65536 ∧
      orbit seed (before + len) = orbit seed before ∧
      fin = orbit seed (before + len) ∧
      (∀ a b : Nat, a < b → b < before + len → orbit seed a ≠ orbit seed b) := by
  obtain ⟨k0, j0, hjk0, hk0, horb0⟩ := orbit_repeats seed hs
  have hterm : (findloopAux 65537 (seenAt seed 0) 0 (orbit seed 0)).isSome :=
    findloopAux_term seed 65537 0 ⟨k0, j0, Nat.zero_le _, by omega, hjk0, horb0⟩
  rw [Option.isSome_iff_exists] at hterm
  obtain ⟨⟨before, len, fin⟩, hres⟩ := hterm
  obtain ⟨k, _, hbk, hlen, horb, hfin, hinj⟩ :=
    findloopAux_sound seed 65537 0 before len fin
      (fun a b _ hb => absurd hb (Nat.not_lt_zero b)) hres
  have hk65 : k ≤ k0 := by
    by_contra hgt
    exact hinj j0 k0 hjk0 (by omega) horb0
  have hblk : before + len = k := by omega
  refine ⟨before, len, fin, hres, by omega, by omega, ?_, ?_, ?_⟩
  · rw [hblk]; exact horb.symm
  · rw [hblk]; exact hfin
  · rw [hblk]; exact hinj

lemma sum_set_getD_succ :
    ∀ (h : List Nat) (m : Nat), m < h.length →
      (h.set m (h.getD m 0 + 1)).sum = h.sum + 1 := by
  intro h
  induction h with
  | nil => intro m hm; simp at hm
  | cons a t ih =>
    intro m hm
    cases m with
    | zero => simp [List.set]; omega
    | succ n =>
      simp only [List.set, List.getD_cons_succ, List.sum_cons]
      rw [ih n (by simpa using hm)]
      omega

/-- Every driver iteration on a 16-bit seed succeeds and increments
exactly one bucket of a length-6 histogram. -/
lemma loopBody_step (s : Nat) (hs : s < 65536) (h : List Nat) (hlen : h.length = 6) :
    ∃ h' : List Nat, loopBody s h = some h' ∧ h'.length = 6 ∧ h'.sum = h.sum + 1 := by
  have hbucket : ∃ m : Nat, driverBucket s = some m ∧ m ≤ 5 := by
    unfold driverBucket secondState
    by_cases h2 : (minikraidS s).1 = 2
    · obtain ⟨before, len, fin, hres, _⟩ := findloop_main s hs
      exact ⟨(minikraidS fin).1, by simp [h2, hres], minikraidS_fst_le fin⟩
    · exact ⟨(minikraidS (minikraidS s).2).1, by simp [h2], minikraidS_fst_le _⟩
  obtain ⟨m, hm, hm5⟩ := hbucket
  have hmlt : m < h.length := by omega
  refine ⟨h.set m (h.getD m 0 + 1), ?_, ?_, ?_⟩
  · simp [loopBody, hm, bump, hmlt]
  · simp [hlen]
  · exact sum_set_getD_succ h m hmlt

/-- Sweeping any list of 16-bit seeds succeeds and adds one to the
histogram total per seed. -/
lemma sweep_sum :
    ∀ (seeds : List Nat), (∀ s ∈ seeds, s < 65536) →
    ∀ h : List Nat, h.length = 6 →
      ∃ h' : List Nat, sweep seeds h = some h' ∧ h'.length = 6 ∧
        h'.sum = h.sum + seeds.length := by
  intro seeds
  induction seeds with
  | nil =>
    intro _ h hlen
    exact ⟨h, rfl, hlen, by simp⟩
  | cons s rest ih =>
    intro hall h hlen
    obtain ⟨h1, hstep, hlen1, hsum1⟩ :=
      loopBody_step s (hall s (List.mem_cons_self _ _)) h hlen
    obtain ⟨h2, hsweep, hlen2, hsum2⟩ :=
      ih (fun x hx => hall x (List.mem_cons_of_mem _ hx)) h1 hlen1
    refine ⟨h2, ?_, hlen2, ?_⟩
    · simp [sweep, hstep, hsweep]
    · rw [hsum2, hsum1]; simp; omega

lemma and_255 (x : Nat) : x &&& 255 = x % 256 := by
  have h := Nat.and_pow_two_sub_one_eq_mod x 8
  norm_num at h
  exact h

lemma and_65535 (x : Nat) : x &&& 65535 = x % 65536 := by
  have h := Nat.and_pow_two_sub_one_eq_mod x 16
  norm_num at h
  exact h

lemma shiftRight_8 (x : Nat) : x >>> 8 = x / 256 := by
  simp [Nat.shiftRight_eq_div_pow]

lemma shiftRight_16 (x : Nat) : x >>> 16 = x / 65536 := by
  simp [Nat.shiftRight_eq_div_pow]

lemma shiftLeft_8 (x : Nat) : x <<< 8 = x * 256 := by
  simp [Nat.shiftLeft_eq]

set_option maxRecDepth 4000 in
/-- The high bytes whose times-5-mod-256 image is 255, 254 or 253 — the
values at which the fold of `rng` can carry into the low byte. -/
lemma mul5_mod_char : ∀ h : Nat, h < 256 →
    ((h * 5 % 256 = 255 ↔ h = 51) ∧ (h * 5 % 256 = 254 ↔ h = 102) ∧
     (h * 5 % 256 = 253 ↔ h = 153)) := by decide

set_option maxRecDepth 4000 in
/-- Without a carry out of bit 16, the new low byte `5*l + 17` vanishes
mod 256 exactly for low byte 99. -/
lemma low_char_nocarry : ∀ l : Nat, l < 256 → ((0 + l * 5 + 17) % 256 = 0 ↔ l = 99) := by
  decide

set_option maxRecDepth 4000 in
/-- With a carry out of bit 16, the new low byte `1 + 5*l + 17` vanishes
mod 256 exactly for low byte 150. -/
lemma low_char_carry : ∀ l : Nat, l < 256 → ((1 + l * 5 + 17) % 256 = 0 ↔ l = 150) := by
  decide

/-- Claim C2, counterexample: state 99 is a nonzero 16-bit state whose
`rng` transition produces a new state (0x300) with a zero low byte, so
state 0 is not the only such state — and in fact `rng 0 = 0x111` has a
nonzero low byte. -/
theorem claim_C2_counterexample :
    rng 99 % 256 = 0 ∧ (99 : Nat) ≠ 0 ∧ rng 0 % 256 ≠ 0 := by decide

/-- Claim C2, amended: for a 16-bit state `s`, the advance (`rng`)
transition produces a new state with a zero low byte exactly when the low
byte of `s` is 99 and its high byte is neither 51 nor 102, or the low byte
of `s` is 150 and its high byte is 51, 102 or 153. (In particular, state 0
is not such a state.) -/
theorem claim_C2_amended : ∀ s : Nat, s < 65536 → (rng s % 256 = 0 ↔
    (s % 256 = 99 ∧ ¬(s / 256 = 51 ∨ s / 256 = 102)) ∨
    (s % 256 = 150 ∧ (s / 256 = 51 ∨ s / 256 = 102 ∨ s / 256 = 153))) := by
  intro s hs
  obtain ⟨l, h, hl, hh, rfl⟩ : ∃ l h : Nat, l < 256 ∧ h < 256 ∧ s = l + 256 * h :=
    ⟨s % 256, s / 256, by omega, by omega, by omega⟩
  have hm : (l + 256 * h) % 256 = l := by omega
  have hd : (l + 256 * h) / 256 = h := by omega
  simp only [rng]
  rw [hm, hd, Nat.mod_eq_of_lt hh]
  have hml : h * 5 % 256 < 256 := Nat.mod_lt _ (by norm_num)
  rw [Nat.mod_mod_of_dvd _ (by norm_num : (256 : Nat) ∣ 65536)]
  have hsplit : (l * 5 + h * 5 % 256 * 256 + 256) / 65536 +
      (l * 5 + h * 5 % 256 * 256 + 256) + 17 =
      ((l * 5 + h * 5 % 256 * 256 + 256) / 65536 + l * 5 + 17) +
        (h * 5 % 256 + 1) * 256 := by ring
  rw [hsplit, Nat.add_mul_mod_self_right]
  obtain ⟨h51, h102, h153⟩ := mul5_mod_char h hh
  rcases Nat.lt_or_ge (l * 5 + h * 5 % 256 * 256 + 256) 65536 with hc | hc
  · rw [Nat.div_eq_of_lt hc, low_char_nocarry l hl]
    constructor
    · intro hl'
      refine Or.inl ⟨hl', ?_⟩
      rintro (h1 | h1)
      · have := h51.mpr h1
        omega
      · have := h102.mpr h1
        omega
    · rintro (⟨hl', _⟩ | ⟨hl', hcase⟩)
      · exact hl'
      · exfalso
        rcases hcase with h1 | h1 | h1
        · have := h51.mpr h1
          omega
        · have := h102.mpr h1
          omega
        · have := h153.mpr h1
          omega
  · have hc1 : (l * 5 + h * 5 % 256 * 256 + 256) / 65536 = 1 := by
      apply Nat.div_eq_of_lt_le
      · omega
      · omega
    rw [hc1, low_char_carry l hl]
    constructor
    · intro hl'
      refine Or.inr ⟨hl', ?_⟩
      have hcases : h * 5 % 256 = 253 ∨ h * 5 % 256 = 254 ∨ h * 5 % 256 = 255 := by
        omega
      rcases hcases with h1 | h1 | h1
      · exact Or.inr (Or.inr (h153.mp h1))
      · exact Or.inr (Or.inl (h102.mp h1))
      · exact Or.inl (h51.mp h1)
    · rintro (⟨hl', hno⟩ | ⟨hl', _⟩)
      · exfalso
        have hcases : h * 5 % 256 = 254 ∨ h * 5 % 256 = 255 := by omega
        rcases hcases with h1 | h1
        · exact hno (Or.inr (h102.mp h1))
        · exact hno (Or.inl (h51.mp h1))
      · exact hl'

/-- Claim C2, amended, witness at state 99. -/
theorem claim_C2_amended_witness : (99 : Nat) < 65536 ∧ (rng 99 % 256 = 0 ↔
    (99 % 256 = 99 ∧ ¬(99 / 256 = 51 ∨ 99 / 256 = 102)) ∨
    (99 % 256 = 150 ∧ (99 / 256 = 51 ∨ 99 / 256 = 102 ∨ 99 / 256 = 153))) :=
  ⟨by decide, claim_C2_amended 99 (by decide)⟩

/-- Claim C3: for every state, `rng` computes exactly the spec's formula
(`low = s & 0xFF`, `high = (s >> 8) & 0xFF`, `r1 = low*5`,
`r2 = (high*5) & 0xFF`, `combined = r1 + (r2 << 8) + 0x100`, new state
`((combined >> 16) + combined + 0x11) & 0xFFFF`); in particular
`rng 0 = 0x111`. -/
theorem claim_C3 :
    (∀ s : Nat, advance_specModel s = rng s) ∧ rng 0 = 0x111 := by
  constructor
  · intro s
    simp only [advance_specModel, rng, and_255, and_65535, shiftRight_8,
      shiftRight_16, shiftLeft_8]
  · decide

/-- Claim C4: from every 16-bit starting state, `drop()` advances one or
more times until the new state's low byte is nonzero (the intermediate
states all have zero low byte), and returns true exactly when that first
nonzero low byte equals 1. -/
theorem claim_C4 : ∀ s : Nat, s < 65536 →
    ∃ k : Nat, 1 ≤ k ∧
      (∀ j : Nat, 0 < j → j < k → rng^[j] s % 256 = 0) ∧
      rng^[k] s % 256 ≠ 0 ∧
      dropFuel 2 s = some (decide (rng^[k] s % 256 = 1), rng^[k] s) ∧
      drop s = (decide (rng^[k] s % 256 = 1), rng^[k] s) := by
  intro s _
  by_cases h1 : rng s % 256 = 0
  · refine ⟨2, by omega, ?_, ?_, ?_, ?_⟩
    · intro j hj0 hj2
      have hj : j = 1 := by omega
      subst hj
      simpa using h1
    · simpa [Function.iterate_succ_apply, Function.iterate_one] using
        rng_rng_low_ne_zero s h1
    · simp [dropFuel, h1, rng_rng_low_ne_zero s h1,
        Function.iterate_succ_apply, Function.iterate_one]
    · simp [drop, dropFuel, h1, rng_rng_low_ne_zero s h1,
        Function.iterate_succ_apply, Function.iterate_one]
  · refine ⟨1, le_refl 1, ?_, ?_, ?_, ?_⟩
    · intro j hj0 hj1
      omega
    · simpa using h1
    · simp [dropFuel, h1]
    · simp [drop, dropFuel, h1]

/-- Claim C4, witness at state 0. -/
theorem claim_C4_witness : (0 : Nat) < 65536 ∧
    ∃ k : Nat, 1 ≤ k ∧
      (∀ j : Nat, 0 < j → j < k → rng^[j] 0 % 256 = 0) ∧
      rng^[k] 0 % 256 ≠ 0 ∧
      dropFuel 2 0 = some (decide (rng^[k] 0 % 256 = 1), rng^[k] 0) ∧
      drop 0 = (decide (rng^[k] 0 % 256 = 1), rng^[k] 0) :=
  ⟨by decide, claim_C4 0 (by decide)⟩

/-- Claim C5: `minikraid()` performs, in order, four advance/drop pairs
giving `a`,`b`,`c`,`d`, then exactly 176 further advances, then one final
drop giving `e`, and returns `int(a)+int(b)+int(c)+int(d)+int(e)` — its
state-passing embedding coincides with the spec's protocol model on every
state. -/
theorem claim_C5 : ∀ s : Nat, minikraidS s = simulate_outcome_specModel s := by
  intro s
  simp only [minikraidS, simulate_outcome_specModel, burn_eq_iterate]
  rfl

/-- Claim C8: from every 16-bit starting state the retry loop of `drop()`
terminates — within two advances a state with nonzero low byte is reached,
and the fueled loop returns a result. -/
theorem claim_C8 : ∀ s : Nat, s < 65536 →
    (dropFuel 2 s).isSome ∧ ∃ k : Nat, 1 ≤ k ∧ k ≤ 2 ∧ rng^[k] s % 256 ≠ 0 := by
  intro s _
  refine ⟨dropFuel_two_isSome s, ?_⟩
  by_cases h1 : rng s % 256 = 0
  · exact ⟨2, by omega, by omega, by
      simpa [Function.iterate_succ_apply, Function.iterate_one] using
        rng_rng_low_ne_zero s h1⟩
  · exact ⟨1, by omega, by omega, by simpa using h1⟩

/-- Claim C8, witness at state 0. -/
theorem claim_C8_witness : (0 : Nat) < 65536 ∧
    ((dropFuel 2 0).isSome ∧ ∃ k : Nat, 1 ≤ k ∧ k ≤ 2 ∧ rng^[k] 0 % 256 ≠ 0) :=
  ⟨by decide, claim_C8 0 (by decide)⟩

/-- Claim C9: for every 16-bit seed, `minikraid()` returns an outcome in
{0, 1, 2, 3, 4, 5}. -/
theorem claim_C9 : ∀ s : Nat, s < 65536 →
    (minikraidS s).1 ∈ ({0, 1, 2, 3, 4, 5} : Finset Nat) := by
  intro s _
  have h := minikraidS_fst_le s
  simp only [Finset.mem_insert, Finset.mem_singleton]
  omega

/-- Claim C9, witness at seed 0. -/
theorem claim_C9_witness : (0 : Nat) < 65536 ∧
    (minikraidS 0).1 ∈ ({0, 1, 2, 3, 4, 5} : Finset Nat) :=
  ⟨by decide, claim_C9 0 (by decide)⟩

set_option maxRecDepth 100000 in
/-- Claim C1, counterexample: for outer-loop seed 41 the first
`minikraid()` run returns 1, but the histogram bucket incremented is
bucket 0 — the second `minikraid()` call runs from the state left by the
first run, not from a freshly re-initialized seed. -/
theorem claim_C1_counterexample :
    (minikraidS 41).1 = 1 ∧ driverBucket 41 = some 0 ∧
      driverBucket 41 ≠ some ((minikraidS 41).1) := by decide

/-- Claim C1, amended: for every seed `s`, the histogram bucket the
driver increments is the outcome of `minikraid()` run from the generator
state left after the first run — the final state of the first
`minikraid()` when its outcome is not 2, or the final state of the
`findloop()` pass when it is 2 — not from the state re-initialized to `s`. -/
theorem claim_C1_amended : ∀ s : Nat, s < 65536 →
    ∃ m : Nat, driverBucket s = some m ∧
      ((minikraidS s).1 ≠ 2 → m = (minikraidS ((minikraidS s).2)).1) ∧
      ((minikraidS s).1 = 2 →
        ∃ r : Nat × Nat × Nat, findloopS s = some r ∧ m = (minikraidS r.2.2).1) := by
  intro s hs
  by_cases h2 : (minikraidS s).1 = 2
  · obtain ⟨before, len, fin, hres, _⟩ := findloop_main s hs
    refine ⟨(minikraidS fin).1, ?_, fun hne => absurd h2 hne,
      fun _ => ⟨(before, len, fin), hres, rfl⟩⟩
    simp [driverBucket, secondState, h2, hres]
  · refine ⟨(minikraidS ((minikraidS s).2)).1, ?_, fun _ => rfl,
      fun he => absurd he h2⟩
    simp [driverBucket, secondState, h2]

/-- Claim C1, amended, witness at seed 41. -/
theorem claim_C1_amended_witness : (41 : Nat) < 65536 ∧
    ∃ m : Nat, driverBucket 41 = some m ∧
      ((minikraidS 41).1 ≠ 2 → m = (minikraidS ((minikraidS 41).2)).1) ∧
      ((minikraidS 41).1 = 2 →
        ∃ r : Nat × Nat × Nat, findloopS 41 = some r ∧ m = (minikraidS r.2.2).1) :=
  ⟨by decide, claim_C1_amended 41 (by decide)⟩

/-- Claim C6: from every 16-bit seed, `findloop` reports a pre-period
`before ≥ 0` and a period `len ≥ 1` such that `before` is the step at
which the recurring state was first seen (no earlier step matches it, and
all states before the stopping step `before + len` are pairwise distinct,
so the stop index is `before + len`), and replaying `before + len`
advances from the seed revisits the state of step `before` exactly at
step `before + len`. -/
theorem claim_C6 : ∀ seed : Nat, seed < 65536 →
    ∃ before len fin : Nat, findloopS seed = some (before, len, fin) ∧
      1 ≤ len ∧
      rng^[before + len] seed = rng^[before] seed ∧
      fin = rng^[before + len] seed ∧
      (∀ j : Nat, j < before → rng^[j] seed ≠ rng^[before] seed) ∧
      (∀ a b : Nat, a < b → b < before + len → rng^[a] seed ≠ rng^[b] seed) := by
  intro seed hs
  obtain ⟨before, len, fin, hres, hlen, hbound, hcyc, hfin, hinj⟩ :=
    findloop_main seed hs
  refine ⟨before, len, fin, hres, hlen, ?_, ?_, ?_, ?_⟩
  · rw [← orbit_eq_iterate, ← orbit_eq_iterate]
    exact hcyc
  · rw [← orbit_eq_iterate]
    exact hfin
  · intro j hj
    rw [← orbit_eq_iterate, ← orbit_eq_iterate]
    exact hinj j before hj (by omega)
  · intro a b hab hb
    rw [← orbit_eq_iterate, ← orbit_eq_iterate]
    exact hinj a b hab hb

/-- Claim C6, witness at seed 0. -/
theorem claim_C6_witness : (0 : Nat) < 65536 ∧
    ∃ before len fin : Nat, findloopS 0 = some (before, len, fin) ∧
      1 ≤ len ∧
      rng^[before + len] 0 = rng^[before] 0 ∧
      fin = rng^[before + len] 0 ∧
      (∀ j : Nat, j < before → rng^[j] 0 ≠ rng^[before] 0) ∧
      (∀ a b : Nat, a < b → b < before + len → rng^[a] 0 ≠ rng^[b] 0) :=
  ⟨by decide, claim_C6 0 (by decide)⟩

/-- Claim C7: the cycle-detection loop of `findloop` terminates for every
16-bit seed within the 65537 available loop-condition checks (at most
65536 recording iterations, each adding a previously unseen 16-bit state,
so the stopping step index is at most 65536). -/
theorem claim_C7 : ∀ seed : Nat, seed < 65536 →
    (findloopS seed).isSome ∧
      ∃ before len fin : Nat, findloopS seed = some (before, len, fin) ∧
        before + len ≤ 65536 := by
  intro seed hs
  obtain ⟨before, len, fin, hres, _, hbound, _⟩ := findloop_main seed hs
  exact ⟨by rw [hres]; rfl, before, len, fin, hres, hbound⟩

/-- Claim C7, witness at seed 0. -/
theorem claim_C7_witness : (0 : Nat) < 65536 ∧
    ((findloopS 0).isSome ∧
      ∃ before len fin : Nat, findloopS 0 = some (before, len, fin) ∧
        before + len ≤ 65536) :=
  ⟨by decide, claim_C7 0 (by decide)⟩

/-- Claim C10: after the driver's full sweep over all 65536 seeds, the
histogram's six buckets sum to 65536 — each seed increments exactly one
bucket. -/
theorem claim_C10 : ∃ h : List Nat, driver = some h ∧ h.sum = 65536 := by
  obtain ⟨h', hsweep, hlen, hsum⟩ :=
    sweep_sum (List.range 65536) (fun s hsmem => List.mem_range.mp hsmem)
      [0, 0, 0, 0, 0, 0] rfl
  refine ⟨h', hsweep, ?_⟩
  rw [hsum, List.length_range]
  rfl

end SMRng
